import Mathlib

/-!
# Verification of the Beta-Binomial posterior simulation core

Shallow embedding of the statistical core of the `pydata-dc-2018` notebooks:
the Beta-Binomial conjugate update, the Monte-Carlo win-probability
reduction, the seeded sampling discipline, the `plot_beta_binomial`
posterior curve, and the `histogram` seat-count dictionaries of the
senate dashboard.

Real parameters are modelled as rationals (`ℚ`); observation counts as
integers (`ℤ`) so that the documented validity bounds are expressible;
sample sequences as `List ℚ`.
-/

/-- Beta distribution shape parameters.  The spec's invariant (both strictly
positive) is stated in theorems, not baked into the type, because the
operations are required to *check* it. -/
structure BetaParams where
  alpha : ℚ
  beta : ℚ
deriving DecidableEq, Repr

/-- One Binomial survey observation: `trials` people asked, `successes`
supporting.  Integers, so that out-of-range inputs (negative counts,
`successes > trials`) can be expressed and rejected. -/
structure SurveyObservation where
  trials : ℤ
  successes : ℤ
deriving DecidableEq, Repr

/-- Error taxonomy of the posterior engine, from the spec's §7. -/
inductive EngineError where
  | invalidParameter
  | invalidObservation
  | invalidDomain
  | emptySample
deriving DecidableEq, Repr

/-- Modelled from the spec: the repository performs the conjugate update
only inline (`np.random.beta(7 + 30, 5 + (40-30), ...)` and
`np.random.beta(10 + 55, 40 + (100-55), ...)`); no named `update` function
with validation exists in the source.  The posterior arithmetic
`alpha + successes, beta + (trials - successes)` follows those source
cells and the notebook's stated formula `Beta(α + k, β + (n−k))`; the
fail-fast validation (`InvalidParameterError` for a non-positive shape,
`InvalidObservationError` for `successes ∉ [0, trials]`, negative trials
included) follows the spec's §4.1/§7. -/
def update (prior : BetaParams) (obs : SurveyObservation) :
    Except EngineError BetaParams :=
  if prior.alpha ≤ 0 ∨ prior.beta ≤ 0 then
    .error .invalidParameter
  else if obs.successes < 0 ∨ obs.trials < obs.successes then
    .error .invalidObservation
  else
    .ok ⟨prior.alpha + (obs.successes : ℚ),
         prior.beta + ((obs.trials - obs.successes : ℤ) : ℚ)⟩

/-- Analytic mean of a Beta distribution, `α / (α + β)`. -/
def betaMean (p : BetaParams) : ℚ := p.alpha / (p.alpha + p.beta)

/-- Derived summary of a Monte-Carlo run. -/
structure SimulationResult where
  win_probability : ℚ
  sample_count : ℕ
deriving DecidableEq, Repr

/-- The per-draw win indicator of the source cell
`elections = [1 if i > 0.5 else 0 for i in p_d]`, with the literal `0.5`
generalised to the spec's `threshold` parameter (default 0.5). -/
def elections (sample : List ℚ) (threshold : ℚ) : List ℕ :=
  sample.map (fun i => if threshold < i then 1 else 0)

/-- Modelled from the spec: the source reduces the indicator list with a
bare `np.mean(elections)` and has no named `winProbability` function; the
fraction-of-wins computation (mean of the indicators, i.e. win count over
sample length) follows the source cells, the empty-sample guard
(`EmptySampleError` instead of a NaN sentinel) follows the spec's
§4.2/§7. -/
def winProbability (sample : List ℚ) (threshold : ℚ) :
    Except EngineError SimulationResult :=
  if sample.isEmpty then
    .error .emptySample
  else
    .ok ⟨mkRat ((elections sample threshold).sum : ℤ) sample.length,
         sample.length⟩

/-! ## Seeded sampling -/

/-- The global pseudo-random generator state (the hidden state of
`np.random`), modelled as a single machine word. -/
structure RngState where
  state : ℕ
deriving DecidableEq, Repr

/-- Modelled from the spec: `np.random.seed(s)` — resets the global
generator state from the seed alone, discarding whatever state the
generator held before. -/
def npRandomSeed (seed : ℕ) (_prev : RngState) : RngState :=
  ⟨seed % 2 ^ 64⟩

/-- One step of the underlying uniform generator, a 64-bit linear
congruential generator.  The spec explicitly permits an underlying
generator differing from numpy's, provided seeded draws are
reproducible. -/
def lcgNext (s : ℕ) : ℕ :=
  (6364136223846793005 * s + 1442695040888963407) % 2 ^ 64

/-- The 31-bit output word of a generator state (its high bits). -/
def lcgOut (s : ℕ) : ℕ := s / 2 ^ 33

/-- Draw `n` uniform 31-bit words, returning them and the final state. -/
def uniforms : ℕ → ℕ → List ℕ × ℕ
  | 0, s => ([], s)
  | n + 1, s =>
    let s' := lcgNext s
    let (rest, sf) := uniforms n s'
    (lcgOut s' :: rest, sf)

/-- A `Beta(a, b)` variate with integer shape parameters: the `a`-th
smallest of `a + b - 1` uniform variates (the order-statistic
characterisation of the Beta distribution), scaled from a 31-bit word
into `[0, 1)`. -/
def betaVariate (a : ℕ) (us : List ℕ) : ℚ :=
  mkRat ((List.insertionSort (· ≤ ·) us).getD (a - 1) 0) (2 ^ 31)

/-- Draw `n` Beta(a, b) variates, threading the generator word. -/
def betaDraws (a b : ℕ) : ℕ → ℕ → List ℚ × ℕ
  | 0, s => ([], s)
  | n + 1, s =>
    let (us, s') := uniforms (a + b - 1) s
    let (rest, sf) := betaDraws a b n s'
    (betaVariate a us :: rest, sf)

/-- Modelled from the spec: `np.random.beta(α, β, count)`, reading and
advancing the global generator state.  The integer shape parameters are
the floors of the Beta parameters; every draw in the repository uses
integer parameters. -/
def npRandomBeta (p : BetaParams) (count : ℕ) (st : RngState) :
    List ℚ × RngState :=
  let (xs, s') :=
    betaDraws (Rat.floor p.alpha).toNat (Rat.floor p.beta).toNat count st.state
  (xs, ⟨s'⟩)

/-- Modelled from the spec: `sample(params, count, seed)` as the source
cells perform it — `np.random.seed(seed)` followed by
`np.random.beta(α, β, count)` — made explicit over the ambient generator
state `prev` that seeding discards. -/
def sample (p : BetaParams) (count : ℕ) (seed : ℕ) (prev : RngState) :
    List ℚ :=
  (npRandomBeta p count (npRandomSeed seed prev)).1

/-! ## plot_beta_binomial -/

/-- Normalisation constant of `scipy.stats.beta(a, b).pdf` for integer
shape parameters: `B(a, b) = (a−1)! (b−1)! / (a+b−1)!`. -/
def betaFn (a b : ℕ) : ℚ :=
  ((a - 1).factorial * (b - 1).factorial : ℚ) / ((a + b - 1).factorial : ℚ)

/-- `beta(a, b).pdf(x)`: the Beta density `x^(a−1) (1−x)^(b−1) / B(a, b)`. -/
def betaPdf (a b : ℕ) (x : ℚ) : ℚ :=
  x ^ (a - 1) * (1 - x) ^ (b - 1) / betaFn a b

/-- `binom(n, x).pmf(k)`: the Binomial mass `C(n, k) x^k (1−x)^(n−k)`. -/
def binomPmf (n : ℕ) (x : ℚ) (k : ℕ) : ℚ :=
  (n.choose k : ℚ) * x ^ k * (1 - x) ^ (n - k)

/-- The pointwise posterior curve of `plot_beta_binomial`:
`posterior = np.multiply(prior, likelihood)`. -/
def posteriorCurve (a b n k : ℕ) (x : ℚ) : ℚ :=
  betaPdf a b x * binomPmf n x k

/-- The x-positions of the three dashed vertical markers drawn by
`plot_beta_binomial`: prior mean `a/(a+b)`, maximum-likelihood value
`k/n`, and posterior mean `(a+k)/(a+b+n)`. -/
def plot_beta_binomial_vlines (a b n k : ℕ) : List ℚ :=
  [(a : ℚ) / ((a : ℚ) + b), (k : ℚ) / n, ((a : ℚ) + k) / ((a : ℚ) + b + n)]

/-! ## senate_dashboard histogram -/

/-- `hist_dict_dem = {i: list(simulations).count(i) for i in set(simulations) if i > 50}`,
with python's value set modelled by `dedup`. -/
def hist_dict_dem (simulations : List ℕ) : List (ℕ × ℕ) :=
  (simulations.dedup.filter (fun i => 50 < i)).map
    (fun i => (i, simulations.count i))

/-- `hist_dict_rep = {i: list(simulations).count(i) for i in set(simulations) if i <= 50}`. -/
def hist_dict_rep (simulations : List ℕ) : List (ℕ × ℕ) :=
  (simulations.dedup.filter (fun i => i ≤ 50)).map
    (fun i => (i, simulations.count i))

/-! ## Helper lemmas -/

theorem mkRat_eq_natCast_div (n : ℤ) (d : ℕ) :
    mkRat n d = (n : ℚ) / (d : ℚ) := by
  rw [Rat.mkRat_eq_divInt, Rat.divInt_eq_div]
  norm_num

theorem elections_sum_eq_countP (s : List ℚ) (t : ℚ) :
    (elections s t).sum = s.countP (fun x => t < x) := by
  induction s with
  | nil => rfl
  | cons x xs ih =>
    simp only [elections, List.map_cons, List.sum_cons, List.countP_cons]
      at ih ⊢
    rw [ih]
    by_cases h : t < x <;> simp [h, Nat.add_comm]

theorem winProbability_ok (s : List ℚ) (t : ℚ) (h : s ≠ []) :
    winProbability s t =
      .ok ⟨((s.countP (fun x => t < x) : ℕ) : ℚ) / (s.length : ℚ),
           s.length⟩ := by
  rw [winProbability, if_neg (by simpa using h), elections_sum_eq_countP,
    mkRat_eq_natCast_div]
  norm_num

/-! ## Claims -/

/-- C1: for every prior with `alpha > 0`, `beta > 0` and every observation
with `0 ≤ successes ≤ trials`, `update` returns exactly
`⟨alpha + successes, beta + (trials − successes)⟩`, and both returned
parameters are strictly positive. -/
theorem update_conjugacy (prior : BetaParams) (obs : SurveyObservation)
    (ha : 0 < prior.alpha) (hb : 0 < prior.beta)
    (h0 : 0 ≤ obs.successes) (h1 : obs.successes ≤ obs.trials) :
    update prior obs =
      .ok ⟨prior.alpha + (obs.successes : ℚ),
           prior.beta + ((obs.trials - obs.successes : ℤ) : ℚ)⟩ ∧
    0 < prior.alpha + (obs.successes : ℚ) ∧
    0 < prior.beta + ((obs.trials - obs.successes : ℤ) : ℚ) := by
  refine ⟨?_, ?_, ?_⟩
  · rw [update, if_neg (by simp only [not_or, not_le]; exact ⟨ha, hb⟩),
      if_neg (by simp only [not_or, not_lt]; exact ⟨h0, h1⟩)]
  · exact add_pos_of_pos_of_nonneg ha (by exact_mod_cast h0)
  · refine add_pos_of_pos_of_nonneg hb ?_
    have : (0 : ℤ) ≤ obs.trials - obs.successes := by omega
    exact_mod_cast this

/-- Witness for C1 at the notebook's first scenario. -/
theorem update_conjugacy_witness :
    update ⟨7, 5⟩ ⟨40, 30⟩ =
      .ok ⟨(7 : ℚ) + ((30 : ℤ) : ℚ), (5 : ℚ) + (((40 : ℤ) - 30 : ℤ) : ℚ)⟩ ∧
    (0 : ℚ) < (7 : ℚ) + ((30 : ℤ) : ℚ) ∧
    (0 : ℚ) < (5 : ℚ) + (((40 : ℤ) - 30 : ℤ) : ℚ) :=
  update_conjugacy ⟨7, 5⟩ ⟨40, 30⟩ (by norm_num) (by norm_num)
    (by norm_num) (by norm_num)

/-- C2: the win indicator uses a strict comparison: a draw exactly equal
to the threshold is classified `0` (a loss), and the win count over a
sample is the count of values strictly greater than the threshold. -/
theorem elections_strict_threshold (s : List ℚ) (t : ℚ) :
    elections (t :: s) t = 0 :: elections s t ∧
    (elections s t).sum = s.countP (fun x => t < x) :=
  ⟨by simp [elections], elections_sum_eq_countP s t⟩

/-- C3: on a non-empty sample, `winProbability` returns the fraction of
values strictly above the threshold over the sample length — a rational
in `[0, 1]` — together with the sample length. -/
theorem winProbability_spec (s : List ℚ) (t : ℚ) (h : s ≠ []) :
    winProbability s t =
      .ok ⟨((s.countP (fun x => t < x) : ℕ) : ℚ) / (s.length : ℚ),
           s.length⟩ ∧
    0 ≤ ((s.countP (fun x => t < x) : ℕ) : ℚ) / (s.length : ℚ) ∧
    ((s.countP (fun x => t < x) : ℕ) : ℚ) / (s.length : ℚ) ≤ 1 := by
  have hlen : (0 : ℚ) < (s.length : ℚ) := by
    exact_mod_cast List.length_pos.mpr h
  refine ⟨winProbability_ok s t h, div_nonneg (by positivity) hlen.le, ?_⟩
  rw [div_le_one hlen]
  exact_mod_cast s.countP_le_length _

/-- Witness for C3 on the one-element sample `[1]` at threshold `0`. -/
theorem winProbability_spec_witness :
    winProbability [(1 : ℚ)] 0 =
      .ok ⟨(([(1 : ℚ)].countP (fun x => (0 : ℚ) < x) : ℕ) : ℚ) /
             ([(1 : ℚ)].length : ℚ),
           [(1 : ℚ)].length⟩ ∧
    0 ≤ (([(1 : ℚ)].countP (fun x => (0 : ℚ) < x) : ℕ) : ℚ) /
          ([(1 : ℚ)].length : ℚ) ∧
    (([(1 : ℚ)].countP (fun x => (0 : ℚ) < x) : ℕ) : ℚ) /
        ([(1 : ℚ)].length : ℚ) ≤ 1 :=
  winProbability_spec [(1 : ℚ)] 0 (by simp)

/-- C4: scenario 1 — `update` of prior `Beta(7, 5)` with observation
`(trials := 40, successes := 30)` yields `Beta(37, 15)`, whose analytic
mean is `37/52`. -/
theorem update_scenario_one :
    update ⟨7, 5⟩ ⟨40, 30⟩ = .ok ⟨37, 15⟩ ∧
    betaMean ⟨37, 15⟩ = 37 / 52 := by
  constructor
  · rw [update]; norm_num
  · rw [betaMean]; norm_num

/-- C6: `update` validates before computing: a non-positive prior shape
fails with `invalidParameter`; with a valid prior, `successes < 0` or
`successes > trials` fails with `invalidObservation`; in particular the
spec's example `update(Beta(1,1), (trials := 10, successes := 15))` fails
with `invalidObservation`. -/
theorem update_validates :
    (∀ (prior : BetaParams) (obs : SurveyObservation),
        prior.alpha ≤ 0 ∨ prior.beta ≤ 0 →
        update prior obs = .error .invalidParameter) ∧
    (∀ (prior : BetaParams) (obs : SurveyObservation),
        0 < prior.alpha → 0 < prior.beta →
        obs.successes < 0 ∨ obs.trials < obs.successes →
        update prior obs = .error .invalidObservation) ∧
    update ⟨1, 1⟩ ⟨10, 15⟩ = .error .invalidObservation := by
  refine ⟨?_, ?_, ?_⟩
  · intro prior obs h
    rw [update, if_pos h]
  · intro prior obs ha hb h
    rw [update, if_neg (by simp only [not_or, not_le]; exact ⟨ha, hb⟩),
      if_pos h]
  · rw [update]; norm_num

/-- Witness for C6: an invalid prior and the spec's invalid observation. -/
theorem update_validates_witness :
    update ⟨-2, 5⟩ ⟨10, 3⟩ = .error .invalidParameter ∧
    update ⟨1, 1⟩ ⟨10, 15⟩ = .error .invalidObservation :=
  ⟨update_validates.1 ⟨-2, 5⟩ ⟨10, 3⟩ (by norm_num),
   update_validates.2.1 ⟨1, 1⟩ ⟨10, 15⟩ (by norm_num) (by norm_num)
     (by norm_num)⟩

/-- C7: the reduction over an empty sample fails with `emptySample`, not
a sentinel value. -/
theorem winProbability_empty (t : ℚ) :
    winProbability [] t = .error .emptySample := rfl

/-- C8: seeded sampling is deterministic — for a valid prior, a positive
count and any seed, two `sample` calls with identical parameters, count
and seed return identical sequences, whatever generator state each call
started from. -/
theorem sample_deterministic (p : BetaParams) (count seed : ℕ)
    (st₁ st₂ : RngState)
    (_ha : 0 < p.alpha) (_hb : 0 < p.beta) (_hc : 0 < count) :
    sample p count seed st₁ = sample p count seed st₂ := rfl

/-- Witness for C8 at `Beta(7, 5)`, three draws, seed 42, two different
ambient generator states. -/
theorem sample_deterministic_witness :
    sample ⟨7, 5⟩ 3 42 ⟨0⟩ = sample ⟨7, 5⟩ 3 42 ⟨987654321⟩ :=
  sample_deterministic ⟨7, 5⟩ 3 42 ⟨0⟩ ⟨987654321⟩ (by norm_num)
    (by norm_num) (by norm_num)

/-! ## C9: the plotted posterior curve -/

theorem betaFn_pos (a b : ℕ) : 0 < betaFn a b :=
  div_pos
    (mul_pos (by exact_mod_cast (a - 1).factorial_pos)
      (by exact_mod_cast (b - 1).factorial_pos))
    (by exact_mod_cast (a + b - 1).factorial_pos)

/-- C9: for shape parameters `a, b ≥ 1` and an observation `k ≤ n`, the
posterior curve plotted by `plot_beta_binomial` — the pointwise product
of the `Beta(a, b)` density and the `Binomial(n, x)` likelihood of `k` —
is a positive constant (independent of `x`) times the
`Beta(a + k, b + (n − k))` density, and the third dashed marker sits at
the posterior mean `(a + k) / (a + b + n)`. -/
theorem plot_beta_binomial_posterior (a b n k : ℕ)
    (ha : 1 ≤ a) (hb : 1 ≤ b) (hk : k ≤ n) :
    ∃ c : ℚ, 0 < c ∧
      (∀ x : ℚ, 0 ≤ x → x ≤ 1 →
        posteriorCurve a b n k x = c * betaPdf (a + k) (b + (n - k)) x) ∧
      (plot_beta_binomial_vlines a b n k).getD 2 0 =
        ((a : ℚ) + k) / ((a : ℚ) + b + n) := by
  refine ⟨(n.choose k : ℚ) * betaFn (a + k) (b + (n - k)) / betaFn a b,
    ?_, ?_, rfl⟩
  · have hc : 0 < (n.choose k : ℚ) := by exact_mod_cast Nat.choose_pos hk
    exact div_pos (mul_pos hc (betaFn_pos _ _)) (betaFn_pos a b)
  · intro x _ _
    have h1 : betaFn a b ≠ 0 := (betaFn_pos a b).ne'
    have h2 : betaFn (a + k) (b + (n - k)) ≠ 0 := (betaFn_pos _ _).ne'
    rw [posteriorCurve, betaPdf, binomPmf, betaPdf,
      show a + k - 1 = (a - 1) + k by omega,
      show b + (n - k) - 1 = (b - 1) + (n - k) by omega,
      pow_add, pow_add]
    field_simp
    ring

/-- Witness for C9 at the notebook's first scenario
`plot_beta_binomial(a=7, b=5, n_trials=40, n_successes=30)`. -/
theorem plot_beta_binomial_posterior_witness :
    ∃ c : ℚ, 0 < c ∧
      (∀ x : ℚ, 0 ≤ x → x ≤ 1 →
        posteriorCurve 7 5 40 30 x =
          c * betaPdf (7 + 30) (5 + (40 - 30)) x) ∧
      (plot_beta_binomial_vlines 7 5 40 30).getD 2 0 =
        (((7 : ℕ) : ℚ) + ((30 : ℕ) : ℚ)) /
          (((7 : ℕ) : ℚ) + ((5 : ℕ) : ℚ) + ((40 : ℕ) : ℚ)) :=
  plot_beta_binomial_posterior 7 5 40 30 (by norm_num) (by norm_num)
    (by norm_num)

/-! ## C10: the histogram dictionaries -/

theorem countP_add_countP_not (l : List ℕ) (p : ℕ → Bool) :
    l.countP p + l.countP (fun x => !p x) = l.length := by
  induction l with
  | nil => rfl
  | cons x xs ih =>
    rw [List.countP_cons, List.countP_cons]
    cases h : p x <;> simp [h] <;> omega

/-- C10: the two frequency dictionaries of `histogram` partition the
observed seat counts: every value occurring in `simulations` is a key of
exactly one of `hist_dict_dem` (value strictly above 50) and
`hist_dict_rep` (value at most 50); each key maps to its occurrence
count; and the values of both dictionaries sum to the number of
simulations. -/
theorem histogram_partition (simulations : List ℕ) :
    (∀ v ∈ simulations,
      (v ∈ (hist_dict_dem simulations).map Prod.fst ∧
        v ∉ (hist_dict_rep simulations).map Prod.fst) ∨
      (v ∉ (hist_dict_dem simulations).map Prod.fst ∧
        v ∈ (hist_dict_rep simulations).map Prod.fst)) ∧
    (∀ q ∈ hist_dict_dem simulations ++ hist_dict_rep simulations,
      q.2 = simulations.count q.1) ∧
    ((hist_dict_dem simulations).map Prod.snd).sum +
        ((hist_dict_rep simulations).map Prod.snd).sum =
      simulations.length := by
  have key_dem : (hist_dict_dem simulations).map Prod.fst =
      simulations.dedup.filter (fun i => 50 < i) := by
    simp [hist_dict_dem, List.map_map, Function.comp_def]
  have key_rep : (hist_dict_rep simulations).map Prod.fst =
      simulations.dedup.filter (fun i => i ≤ 50) := by
    simp [hist_dict_rep, List.map_map, Function.comp_def]
  refine ⟨?_, ?_, ?_⟩
  · intro v hv
    have hvd : v ∈ simulations.dedup := List.mem_dedup.mpr hv
    by_cases h : 50 < v
    · refine Or.inl ⟨?_, ?_⟩
      · rw [key_dem]
        exact List.mem_filter.mpr ⟨hvd, by simpa using h⟩
      · rw [key_rep]
        intro hmem
        have := (List.mem_filter.mp hmem).2
        simp at this
        omega
    · refine Or.inr ⟨?_, ?_⟩
      · rw [key_dem]
        intro hmem
        have := (List.mem_filter.mp hmem).2
        simp at this
        omega
      · rw [key_rep]
        exact List.mem_filter.mpr ⟨hvd, by simp; omega⟩
  · intro q hq
    rcases List.mem_append.mp hq with hq | hq
    · obtain ⟨i, _, rfl⟩ := List.mem_map.mp hq
      rfl
    · obtain ⟨i, _, rfl⟩ := List.mem_map.mp hq
      rfl
  · have snd_dem : (hist_dict_dem simulations).map Prod.snd =
        (simulations.dedup.filter (fun i => 50 < i)).map
          (fun i => simulations.count i) := by
      simp [hist_dict_dem, List.map_map, Function.comp_def]
    have snd_rep : (hist_dict_rep simulations).map Prod.snd =
        (simulations.dedup.filter (fun i => i ≤ 50)).map
          (fun i => simulations.count i) := by
      simp [hist_dict_rep, List.map_map, Function.comp_def]
    rw [snd_dem, snd_rep, List.sum_map_count_dedup_filter_eq_countP,
      List.sum_map_count_dedup_filter_eq_countP]
    have hpt : (fun i : ℕ => decide (i ≤ 50)) =
        (fun i : ℕ => !decide (50 < i)) := by
      funext i
      rw [← decide_not]
      exact decide_eq_decide.mpr (by omega)
    calc simulations.countP (fun i => 50 < i) +
          simulations.countP (fun i => i ≤ 50)
        = simulations.countP (fun i => 50 < i) +
          simulations.countP (fun i => !decide (50 < i)) := by rw [hpt]
      _ = simulations.length := countP_add_countP_not _ _

/-! ## C5: scenario 2, with the Monte-Carlo win estimate -/

/-- Win count of `betaDraws` computed purely over the generator words:
one order-statistic `Beta(a, b)` draw exceeds `1/2` exactly when at most
`a − 1` of its `a + b − 1` uniform words are `≤ 2^30`. -/
def natWins (a b : ℕ) : ℕ → ℕ → ℕ
  | 0, _ => 0
  | n + 1, s =>
    let (us, s') := uniforms (a + b - 1) s
    (if us.countP (fun u => u ≤ 2 ^ 30) ≤ a - 1 then 1 else 0) +
      natWins a b n s'

theorem uniforms_length (n s : ℕ) : (uniforms n s).1.length = n := by
  induction n generalizing s with
  | zero => rfl
  | succ n ih =>
    show (lcgOut (lcgNext s) :: (uniforms n (lcgNext s)).1).length = n + 1
    simp [ih]

theorem betaDraws_length (a b n s : ℕ) :
    (betaDraws a b n s).1.length = n := by
  induction n generalizing s with
  | zero => rfl
  | succ n ih =>
    show (betaVariate a (uniforms (a + b - 1) s).1 ::
        (betaDraws a b n (uniforms (a + b - 1) s).2).1).length = n + 1
    simp [ih]

theorem countP_le_tail_eq_zero {x t : ℕ} {xs : List ℕ}
    (hmin : ∀ y ∈ xs, x ≤ y) (hxt : ¬ x ≤ t) :
    xs.countP (fun y => y ≤ t) = 0 :=
  List.countP_eq_zero.mpr fun y hy => by
    simp only [decide_eq_true_eq]
    exact fun hyt => hxt (le_trans (hmin y hy) hyt)

/-- Rank characterisation of a sorted list: the element at index `i`
exceeds `t` exactly when at most `i` elements are `≤ t`. -/
theorem sorted_lt_getD_iff {l : List ℕ} (hs : l.Sorted (· ≤ ·)) {i : ℕ}
    (hi : i < l.length) (t : ℕ) :
    t < l.getD i 0 ↔ l.countP (fun x => x ≤ t) ≤ i := by
  induction l generalizing i with
  | nil => simp at hi
  | cons x xs ih =>
    rw [List.sorted_cons] at hs
    cases i with
    | zero =>
      rw [List.getD_cons_zero, List.countP_cons]
      by_cases hxt : x ≤ t
      · rw [if_pos (decide_eq_true hxt)]
        omega
      · rw [if_neg (fun h => hxt (of_decide_eq_true h)),
          countP_le_tail_eq_zero hs.1 hxt]
        omega
    | succ i =>
      rw [List.getD_cons_succ, List.countP_cons]
      have hi' : i < xs.length := by simpa using hi
      rw [ih hs.2 hi']
      by_cases hxt : x ≤ t
      · rw [if_pos (decide_eq_true hxt)]
        omega
      · rw [if_neg (fun h => hxt (of_decide_eq_true h)),
          countP_le_tail_eq_zero hs.1 hxt]
        omega

theorem half_lt_betaVariate_iff (a : ℕ) (us : List ℕ)
    (hlen : a - 1 < us.length) :
    mkRat 1 2 < betaVariate a us ↔
      us.countP (fun u => u ≤ 2 ^ 30) ≤ a - 1 := by
  rw [betaVariate]
  have hmk : ∀ m : ℕ, (mkRat 1 2 < mkRat m (2 ^ 31)) ↔ 2 ^ 30 < m := by
    intro m
    rw [mkRat_eq_natCast_div, mkRat_eq_natCast_div,
      div_lt_div_iff₀ (by norm_num) (by norm_num)]
    rw [show ((2 ^ 31 : ℕ) : ℚ) = 2 ^ 31 by push_cast; ring]
    constructor
    · intro h
      have h' : (2 ^ 31 : ℕ) < m * 2 := by exact_mod_cast h
      omega
    · intro h
      have h' : (2 ^ 31 : ℕ) < m * 2 := by omega
      exact_mod_cast h'
  rw [hmk]
  have hsort := List.sorted_insertionSort (· ≤ ·) us
  have hperm := List.perm_insertionSort (· ≤ ·) us
  have hlen' : a - 1 < (List.insertionSort (· ≤ ·) us).length := by
    rwa [hperm.length_eq]
  rw [sorted_lt_getD_iff hsort hlen' (2 ^ 30), hperm.countP_eq]

/-- The win count over a batch of Beta draws equals `natWins`. -/
theorem elections_betaDraws (a b : ℕ) (ha : 1 ≤ a) (hb : 1 ≤ b) :
    ∀ n s,
      (elections (betaDraws a b n s).1 (mkRat 1 2)).sum =
        natWins a b n s := by
  intro n
  induction n with
  | zero => intro s; rfl
  | succ n ih =>
    intro s
    have hlen : a - 1 < ((uniforms (a + b - 1) s).1).length := by
      rw [uniforms_length]; omega
    have hiff := half_lt_betaVariate_iff a (uniforms (a + b - 1) s).1 hlen
    show (elections
        (betaVariate a (uniforms (a + b - 1) s).1 ::
          (betaDraws a b n (uniforms (a + b - 1) s).2).1)
        (mkRat 1 2)).sum =
      (if (uniforms (a + b - 1) s).1.countP (fun u => u ≤ 2 ^ 30) ≤ a - 1
        then 1 else 0) +
        natWins a b n (uniforms (a + b - 1) s).2
    rw [elections, List.map_cons, List.sum_cons]
    have htail :
        ((betaDraws a b n (uniforms (a + b - 1) s).2).1.map
          (fun i => if mkRat 1 2 < i then 1 else 0)).sum =
          natWins a b n (uniforms (a + b - 1) s).2 := ih _
    rw [htail]
    congr 1
    by_cases h : mkRat 1 2 < betaVariate a (uniforms (a + b - 1) s).1
    · rw [if_pos h, if_pos (hiff.mp h)]
    · rw [if_neg h, if_neg (fun hc => h (hiff.mpr hc))]

/-- Unfolding `sample` to the underlying draw stream: seeding replaces
the generator state by the (wrapped) seed, and the shape parameters are
the floors of the Beta parameters. -/
theorem sample_unfold (p : BetaParams) (count seed : ℕ) (prev : RngState) :
    sample p count seed prev =
      (betaDraws (Rat.floor p.alpha).toNat (Rat.floor p.beta).toNat count
        (seed % 2 ^ 64)).1 := rfl

set_option maxRecDepth 100000 in
set_option maxHeartbeats 1000000 in
theorem natWins_scenario_two : natWins 65 85 100 42 = 5 := by decide

set_option maxRecDepth 100000 in
/-- C5: scenario 2 — `update` of prior `Beta(10, 40)` with observation
`(trials := 100, successes := 55)` yields `Beta(65, 85)`, whose analytic
mean is `65/150 ≈ 0.433`; and `winProbability` at threshold `0.5` on a
seeded sample of 100 draws from this posterior is `5/100 = 0.05`, well
below `0.5` (an order of magnitude under it). -/
theorem update_scenario_two :
    update ⟨10, 40⟩ ⟨100, 55⟩ = .ok ⟨65, 85⟩ ∧
    betaMean ⟨65, 85⟩ = 65 / 150 ∧
    winProbability (sample ⟨65, 85⟩ 100 42 ⟨0⟩) (1 / 2) =
      .ok ⟨1 / 20, 100⟩ ∧
    (1 / 20 : ℚ) < 1 / 10 := by
  refine ⟨?_, ?_, ?_, by norm_num⟩
  · rw [update]; norm_num
  · rw [betaMean]; norm_num
  · rw [sample_unfold]
    have hfa : (Rat.floor (BetaParams.mk 65 85).alpha).toNat = 65 := rfl
    have hfb : (Rat.floor (BetaParams.mk 65 85).beta).toNat = 85 := rfl
    have hseed : (42 : ℕ) % 2 ^ 64 = 42 := by norm_num
    rw [hfa, hfb, hseed]
    have hne : (betaDraws 65 85 100 42).1 ≠ [] := by
      intro h
      have hl := betaDraws_length 65 85 100 42
      rw [h] at hl
      simp at hl
    rw [winProbability, if_neg (by simpa using hne)]
    have hthr : (1 / 2 : ℚ) = mkRat 1 2 := by
      rw [mkRat_eq_natCast_div]; norm_num
    rw [hthr, elections_betaDraws 65 85 (by norm_num) (by norm_num) 100 42,
      betaDraws_length, natWins_scenario_two]
    have hval : mkRat ((5 : ℕ) : ℤ) 100 = 1 / 20 := by
      rw [mkRat_eq_natCast_div]; norm_num
    rw [hval]
